import Mathlib

/-!
# Verification of the eventkit runtime library

A shallow embedding, in Lean 4, of the parts of the `@divmode/eventkit`
TypeScript library that its specification makes claims about:

* `Bus.put`, `Bus.chunkEntries`, `Bus.computeEventSize` (runtime/Bus.ts):
  batching of EventBridge `PutEvents` entries;
* `Event.publish`, `Event.pattern`, `Event.computePattern`, the lazy
  `bus` accessor (runtime/Event.ts);
* `createEventHandler` (runtime/createEventHandler.ts);
* `createTransform` / `generateInputPaths` (sst/eventbridge);
* `registerEventSchema` and `schemaRegistry.registerSchema` (registry).

JavaScript strings are modelled by Lean `String`; `Buffer.byteLength(s,
"utf8")` is the sum of the UTF-8 sizes of the characters.  Optional
(possibly-`undefined`) values become `Option`.  `async` functions that can
`throw` become functions into `Except String`; a `.error` result models a
rejection/throw and by construction carries no effect, so "throws before
any network call" is modelled by returning `.error` without mentioning the
send operation.  The EventBridge client itself is external to the
repository, so a network send is an explicit function parameter
`send : List PutEventsRequestEntry → PutEventsResponse`.
-/

namespace EventKit

/-- UTF-8 byte length of a string: model of `Buffer.byteLength(s, "utf8")`. -/
def byteLen (s : String) : Nat :=
  s.data.foldl (fun n c => n + c.utf8Size) 0

/-- Model of the AWS `PutEventsRequestEntry` shape (all fields optional).
`Time` is a `Date` in JS; only its presence matters to the code, so it is
modelled as `Option Nat`.  The hidden non-enumerable `__bus` tag attached
by `Event.create` is modelled as an optional bus identity (`Option Nat`,
reference equality of `Bus` objects becoming equality of identities). -/
structure PutEventsRequestEntry where
  Time : Option Nat := none
  Detail : Option String := none
  DetailType : Option String := none
  Source : Option String := none
  Resources : Option (List String) := none
  EventBusName : Option String := none
  «__bus» : Option Nat := none
  deriving DecidableEq, Inhabited, Repr

/-- Model of the AWS `PutEventsResultEntry` shape. -/
structure PutEventsResultEntry where
  EventId : Option String := none
  ErrorCode : Option String := none
  deriving DecidableEq, Inhabited, Repr

/-- Model of the AWS `PutEventsResponse` shape. -/
structure PutEventsResponse where
  FailedEntryCount : Option Nat := none
  Entries : Option (List PutEventsResultEntry) := none
  deriving DecidableEq, Inhabited, Repr

namespace Bus

/-- `Bus.computeEventSize` (runtime/Bus.ts): size of a single entry.
14 bytes when a `Time` is present, plus the UTF-8 byte lengths of
`Detail`, `DetailType`, `Source` and each string of `Resources`.
(JS truthiness on strings treats `""` as absent, but its byte length is 0,
so `Option.isSome` is an exact model of the computed size.) -/
def computeEventSize (e : PutEventsRequestEntry) : Nat :=
  (if e.Time.isSome then 14 else 0)
    + (match e.Detail with | some d => byteLen d | none => 0)
    + (match e.DetailType with | some d => byteLen d | none => 0)
    + (match e.Source with | some s => byteLen s | none => 0)
    + (match e.Resources with
       | some rs => rs.foldl (fun n r => n + byteLen r) 0
       | none => 0)

/-- Total computed size of a list of entries. -/
def entryListSize (l : List PutEventsRequestEntry) : Nat :=
  l.foldl (fun n e => n + computeEventSize e) 0

/-- The loop of `Bus.chunkEntries`, with the mutable locals
(`currentChunk`, `currentSize`, `chunks`) as explicit parameters.
The three-way disjunction is the source's condition verbatim
(its third disjunct is redundant but kept). -/
def chunkGo : List PutEventsRequestEntry → List PutEventsRequestEntry → Nat →
    List (List PutEventsRequestEntry) → List (List PutEventsRequestEntry)
  | [], cur, _, chunks => if cur.length > 0 then chunks ++ [cur] else chunks
  | e :: rest, cur, size, chunks =>
    let s := computeEventSize e
    if cur.length ≥ 10 ∨ size + s > 256000 ∨ (cur.length > 0 ∧ size + s > 256000) then
      if cur.length > 0 then
        chunkGo rest [e] s (chunks ++ [cur])
      else
        chunkGo rest (cur ++ [e]) (size + s) chunks
    else
      chunkGo rest (cur ++ [e]) (size + s) chunks

/-- `Bus.chunkEntries` (runtime/Bus.ts): split entries into chunks of at most
10 entries and (nominally) at most 256000 bytes; an empty input yields the
single empty chunk `[[]]`. -/
def chunkEntries (entries : List PutEventsRequestEntry) : List (List PutEventsRequestEntry) :=
  let chunks := chunkGo entries [] 0 []
  if chunks.length > 0 then chunks else [[]]

/-- The fold of `Bus.put` that merges multiple `PutEventsResponse`s:
failure counts are summed (a missing/zero count contributes 0, matching JS
truthiness) and result-entry lists are concatenated (a missing list
contributes nothing). -/
def mergeResponses (results : List PutEventsResponse) : PutEventsResponse :=
  let merged := results.foldl
    (fun (m : List PutEventsResultEntry × Nat) r =>
      ((m.1 ++ r.Entries.getD []), m.2 + r.FailedEntryCount.getD 0))
    ([], 0)
  { Entries := some merged.1, FailedEntryCount := some merged.2 }

/-- Tag an entry with the bus name, as `Bus.put` does before chunking. -/
def withBusName (name : String) (e : PutEventsRequestEntry) : PutEventsRequestEntry :=
  { e with EventBusName := some name }

/-- `Bus.put` (runtime/Bus.ts).  The external client call
`this._eventBridge.send` is the parameter `send`; each chunk is sent in one
call.  A single chunk is sent directly and its response returned as-is;
multiple chunks are all sent and their responses merged. -/
def put (name : String) (send : List PutEventsRequestEntry → PutEventsResponse)
    (events : List PutEventsRequestEntry) : PutEventsResponse :=
  let entries := events.map (withBusName name)
  let chunked := chunkEntries entries
  if chunked.length = 1 then
    send (chunked.headD [])
  else
    mergeResponses (chunked.map send)

end Bus

/-- The specification device used to state what `chunkEntries` does when entry
sizes never hit the byte limit: chunking by count alone, 10 entries per chunk,
with the partially filled chunk as accumulator. -/
def countChunkAux : List PutEventsRequestEntry → List PutEventsRequestEntry →
    List (List PutEventsRequestEntry)
  | cur, [] => if cur.length > 0 then [cur] else []
  | cur, e :: rest =>
    if cur.length ≥ 10 then cur :: countChunkAux [e] rest
    else countChunkAux (cur ++ [e]) rest

/-- Insertion step of a JS `Set`: a member is added at the end iff not present. -/
def insertNew (acc : List String) (s : String) : List String :=
  if s ∈ acc then acc else acc ++ [s]

/-- `[...new Set(l)]`: de-duplication keeping first occurrences, in insertion
order. -/
def jsSetDedup (l : List String) : List String :=
  l.foldl insertNew []

namespace Event

/-- `getBusFromEntry` (runtime/Event.ts): read the hidden `__bus` tag. -/
def getBusFromEntry (e : PutEventsRequestEntry) : Option Nat :=
  e.«__bus»

/-- Message thrown by `Event.publish` on an empty array. -/
def emptyPublishError : String := "Cannot publish empty events array"

/-- Message thrown by `Event.publish` when entries carry different buses. -/
def differentBusesError : String :=
  "Cannot publish events from different buses in single call. " ++
  "Use separate publish() calls per bus for better isolation and clarity."

/-- The `for (const entry of entries)` loop of `Event.publish`: the first
entry whose (tag-or-self) bus differs from `firstBus` throws; `none` means
the loop finished without throwing. -/
def sameBusCheck (selfBus firstBus : Nat) : List PutEventsRequestEntry → Option String
  | [] => none
  | e :: rest =>
    if (getBusFromEntry e).getD selfBus ≠ firstBus then some differentBusesError
    else sameBusCheck selfBus firstBus rest

/-- The pre-built-entries branch of `Event.publish` (runtime/Event.ts),
up to the point where a network send would be dispatched.  Bus objects are
modelled by identities (`Nat`, reference equality becoming equality);
`selfBus` is the publishing event's own (lazily resolved) bus, the fallback
when an entry carries no `__bus` tag.  A thrown error is `.error`; the
successful outcome `.ok (bus, entries)` records the single `bus.put(entries)`
call that would then be dispatched — so `.error` results are produced before
any put call is made. -/
def publishEntries (selfBus : Nat) (entries : List PutEventsRequestEntry) :
    Except String (Nat × List PutEventsRequestEntry) :=
  match entries with
  | [] => .error emptyPublishError
  | first :: _ =>
    let firstBus := (getBusFromEntry first).getD selfBus
    match sameBusCheck selfBus firstBus entries with
    | some err => .error err
    | none => .ok (firstBus, entries)

/-- An event as the pattern generators see it: its `name` and `source`. -/
structure PatternEvent where
  name : String
  source : String
  deriving DecidableEq, Inhabited, Repr

/-- The `detail` object of a generated pattern: `{ properties: filter }`. -/
structure DetailPattern (α : Type) where
  properties : α
  deriving DecidableEq, Repr

/-- A generated EventBridge pattern: top-level keys `source` and
`detail-type` (always arrays), plus `detail` present exactly when a filter
was supplied. -/
structure EventPattern (α : Type) where
  source : List String
  «detail-type» : List String
  detail : Option (DetailPattern α)
  deriving DecidableEq, Repr

/-- `Event.pattern` (runtime/Event.ts): single-event pattern, the filter
spread into `detail.properties` when present. -/
def pattern {α : Type} (ev : PatternEvent) (filter : Option α) : EventPattern α :=
  let basePattern : EventPattern α :=
    { source := [ev.source], «detail-type» := [ev.name], detail := none }
  match filter with
  | some f => { basePattern with detail := some ⟨f⟩ }
  | none => basePattern

/-- Message thrown by `Event.computePattern` on an empty events array. -/
def emptyPatternError : String := "Cannot compute pattern for empty events array"

/-- `Event.computePattern` (runtime/Event.ts): multi-event pattern with
de-duplicated sources (`[...new Set(...)]`) and concatenated names. -/
def computePattern {α : Type} (events : List PatternEvent) (filter : Option α) :
    Except String (EventPattern α) :=
  if events.length = 0 then .error emptyPatternError
  else
    let sources := jsSetDedup (events.map PatternEvent.source)
    let detailTypes := events.map PatternEvent.name
    let basePattern : EventPattern α :=
      { source := sources, «detail-type» := detailTypes, detail := none }
    .ok (match filter with
         | some f => { basePattern with detail := some ⟨f⟩ }
         | none => basePattern)

/-- The `_bus` constructor argument of `Event`: a `Bus` or a factory
`() => Bus`.  Bus objects are modelled by identities (`Nat`). -/
inductive BusRef where
  | direct (b : Nat)
  | factory (f : Unit → Nat)

/-- Evaluate a bus reference (`typeof this._bus === 'function' ? this._bus() :
this._bus`). -/
def resolveBusRef : BusRef → Nat
  | .direct b => b
  | .factory f => f ()

/-- How many factory invocations one evaluation of the reference performs. -/
def factoryInvocations : BusRef → Nat
  | .direct _ => 0
  | .factory _ => 1

/-- The fields of an `Event` relevant to the lazy `bus` accessor:
the constructor argument and the `_resolvedBus` memo, initially `none`. -/
structure LazyBusState where
  busRef : BusRef
  resolvedBus : Option Nat

/-- The state of a freshly constructed `Event`. -/
def initState (r : BusRef) : LazyBusState :=
  { busRef := r, resolvedBus := none }

/-- The private `bus` getter (runtime/Event.ts): resolve and memoize on
first access; later accesses return the memo.  The third component counts
factory invocations performed by this access. -/
def getBus (s : LazyBusState) : Nat × LazyBusState × Nat :=
  match s.resolvedBus with
  | some b => (b, s, 0)
  | none =>
    (resolveBusRef s.busRef,
     { s with resolvedBus := some (resolveBusRef s.busRef) },
     factoryInvocations s.busRef)

/-- `n` successive accesses to the `bus` getter (as performed by any sequence
of `create`/`publish` operations): the buses returned, the final state, and
the total number of factory invocations. -/
def runGetBus : Nat → LazyBusState → List Nat × LazyBusState × Nat
  | 0, s => ([], s, 0)
  | n + 1, s =>
    let (b, s', c) := getBus s
    let (bs, s'', c') := runGetBus n s'
    (b :: bs, s'', c + c')

end Event

/-- An event definition as `createEventHandler` sees it: its `name` and its
schema's `parse`, which throws (`.error`) on invalid input.  `P` is the wire
type of `detail.properties`, `V` the validated type. -/
structure HandlerEvent (P V : Type) where
  name : String
  parse : P → Except String V

/-- An inbound EventBridge envelope: only `detail-type`, `detail.properties`
and `detail.metadata` are read by the handler. -/
structure EventBridgeEnvelope (P M : Type) where
  detailType : String
  properties : P
  metadata : Option M

/-- The payload passed to the callback of `createEventHandler`. -/
structure HandlerPayload (V M : Type) where
  type : String
  properties : V
  metadata : Option M
  deriving DecidableEq, Repr

/-- Message thrown when no event definition matches the detail-type. -/
def noEventDefinitionError (t : String) : String :=
  "No event definition found for type: " ++ t

/-- The handler produced by `createEventHandler`
(runtime/createEventHandler.ts), applied to one inbound envelope.  The
callback is modelled by recording its argument: the returned list is the
sequence of callback invocations (so `.ok [p]` is "callback invoked exactly
once, with `p`"), and `.error` is a rejection with no invocation. -/
def createEventHandler {P V M : Type} (events : List (HandlerEvent P V))
    (awsEvent : EventBridgeEnvelope P M) : Except String (List (HandlerPayload V M)) :=
  let eventType := awsEvent.detailType
  match events.find? (fun e => e.name == eventType) with
  | none => .error (noEventDefinitionError eventType)
  | some matchingEvent =>
    match matchingEvent.parse awsEvent.properties with
    | .error msg => .error msg
    | .ok validatedProperties =>
      .ok [{ type := eventType, properties := validatedProperties,
             metadata := awsEvent.metadata }]

/-- A JSON-shaped value as built by a transform function from placeholder
values, with objects and arrays as explicit spines (`objCons`/`arrCons`).
`eventProxy` is the event-properties placeholder object itself, embedded
unmodified; a recorded property read yields an ordinary placeholder string
`"<field>"` (a `str`), indistinguishable from any other string, exactly as in
JS where the proxy's `get` trap returns a string. -/
inductive JVal where
  | str (s : String)
  | eventProxy
  | objNil
  | objCons (key : String) (value : JVal) (rest : JVal)
  | arrNil
  | arrCons (head : JVal) (tail : JVal)
  deriving DecidableEq, Repr

/-- `containsEventProxy` (sst/eventbridge): does the proxy object appear
unmodified anywhere in the returned structure?  The recursion walks
`Object.values` of objects and the elements of arrays. -/
def containsEventProxy : JVal → Bool
  | .eventProxy => true
  | .str _ => false
  | .objNil => false
  | .objCons _ v rest => containsEventProxy v || containsEventProxy rest
  | .arrNil => false
  | .arrCons h t => containsEventProxy h || containsEventProxy t

/-- `reconstructWithTemplate` (sst/eventbridge): replace every occurrence of
the proxy with the replacement template, leaving everything else in place. -/
def reconstructWithTemplate : JVal → JVal → JVal
  | .eventProxy, replacement => replacement
  | .str s, _ => .str s
  | .objNil, _ => .objNil
  | .objCons k v rest, replacement =>
    .objCons k (reconstructWithTemplate v replacement)
      (reconstructWithTemplate rest replacement)
  | .arrNil, _ => .arrNil
  | .arrCons h t, replacement =>
    .arrCons (reconstructWithTemplate h replacement)
      (reconstructWithTemplate t replacement)

/-- One JS record assignment `m[k] = v`: an existing key keeps its position
and gets the new value; a new key is appended. -/
def recordSet (m : List (String × String)) (k v : String) : List (String × String) :=
  if m.any (fun p => p.1 = k) then
    m.map (fun p => if p.1 = k then (k, v) else p)
  else
    m ++ [(k, v)]

/-- `inputPaths[field] = "$.detail.properties.<field>"`. -/
def addEventPath (m : List (String × String)) (f : String) : List (String × String) :=
  recordSet m f ("$.detail.properties." ++ f)

/-- The system-fields loop of `generateInputPaths`: `time` and `source` get
their envelope paths, any other recorded system read adds nothing. -/
def addSystemPath (m : List (String × String)) (f : String) : List (String × String) :=
  if f = "time" then recordSet m f "$.time"
  else if f = "source" then recordSet m f "$.source"
  else m

/-- `generateInputPaths` (sst/eventbridge): when `schemaFields` is supplied
(full-event usage) the event paths come from it, otherwise from the
individually accessed fields; system-field paths are added afterwards.
The record is the insertion-ordered assignment list built by `recordSet`. -/
def generateInputPaths (accessedFields systemFields : List String)
    (schemaFields : Option (List String)) : List (String × String) :=
  let base := match schemaFields with
    | some fs => fs.foldl addEventPath []
    | none => accessedFields.foldl addEventPath []
  systemFields.foldl addSystemPath base

/-- A Zod object schema, abstracted by the field list that
`extractSchemaFields`' validation-error introspection yields for it
(best-effort: possibly empty when the schema cannot be introspected). -/
structure ZodObjectSchema where
  fields : List String
  deriving DecidableEq, Repr

/-- `extractSchemaFields` (sst/eventbridge): the introspected field names. -/
def extractSchemaFields (s : ZodObjectSchema) : List String :=
  s.fields

/-- A transform function, represented by its observable behaviour when run
once on the recording proxies: the event-properties reads it performs (in
order, possibly repeated), the system-field reads, and the structure it
returns. -/
structure TransformFn where
  reads : List String
  sysReads : List String
  result : JVal
  deriving DecidableEq, Repr

/-- `InputTransformerConfig`; the template is kept as a structure rather
than its `JSON.stringify` serialization. -/
structure InputTransformerConfig where
  inputPaths : List (String × String)
  inputTemplate : JVal
  deriving DecidableEq, Repr

/-- `createTransform` (sst/eventbridge): run the transform on recording
proxies; if the whole proxy appears in the result and a schema was given,
generate paths and template from the schema's fields, otherwise from the
individually accessed fields. -/
def createTransform (t : TransformFn) (eventSchema : Option ZodObjectSchema) :
    InputTransformerConfig :=
  let accessedFields := jsSetDedup t.reads
  let systemFields := jsSetDedup t.sysReads
  let usesFullEvent := containsEventProxy t.result
  match usesFullEvent, eventSchema with
  | true, some sch =>
    let schemaFields := extractSchemaFields sch
    let inputPaths := generateInputPaths accessedFields systemFields (some schemaFields)
    let eventTemplate := schemaFields.foldr
      (fun f acc => JVal.objCons f (JVal.str ("<" ++ f ++ ">")) acc) JVal.objNil
    { inputPaths := inputPaths,
      inputTemplate := reconstructWithTemplate t.result eventTemplate }
  | _, _ =>
    { inputPaths := generateInputPaths accessedFields systemFields none,
      inputTemplate := t.result }

/-- `SchemaRegistrationResult` (registry/types.ts). -/
structure SchemaRegistrationResult where
  success : Bool
  schemaId : Option String := none
  version : Option String := none
  error : Option String := none
  deriving DecidableEq, Repr

/-- `schemaRegistry.registerSchema` (registry): the AWS describe/create/update
calls are external, so their combined outcome is the parameter — `.ok (arn,
version)` for a successful create or update, `.error msg` for any failure
thrown inside the `try`.  The catch-all converts failures into
`{ success: false, error }`; successes yield `{ success: true, ... }`.
This function itself never throws. -/
def registerSchema (outcome : Except String (Option String × Option String)) :
    SchemaRegistrationResult :=
  match outcome with
  | .ok (arn, ver) => { success := true, schemaId := arn, version := ver }
  | .error msg => { success := false, error := some msg }

/-- `registerEventSchema` (registry/registration.ts).  `jsonSchema` is the
evaluation of `toJsonSchema(event._schema, event.name)` (it may throw),
`outcome` the registry outcome fed to `registerSchema`.  The whole body is
inside `try { ... } catch (error) { console.error(...) }` and has no return
statement, so the promise resolves `undefined` on both paths: the result is
`.ok none`, where `none` stands for the absent result object (the
`SchemaRegistrationResult` produced inside is discarded). -/
def registerEventSchema (jsonSchema : Except String String)
    (outcome : Except String (Option String × Option String)) :
    Except String (Option SchemaRegistrationResult) :=
  match (do
      let _ ← jsonSchema
      let _ := registerSchema outcome
      pure () : Except String Unit) with
  | .ok _ => .ok none
  | .error _ => .ok none

/-! ## Helper lemmas -/

theorem foldl_add_eq_sum {α : Type} (f : α → Nat) :
    ∀ (l : List α) (a : Nat), l.foldl (fun n x => n + f x) a = a + (l.map f).sum
  | [], a => by simp
  | x :: l, a => by
    simp only [List.foldl_cons, List.map_cons, List.sum_cons]
    rw [foldl_add_eq_sum f l]
    omega

theorem entryListSize_eq_sum (l : List PutEventsRequestEntry) :
    Bus.entryListSize l = (l.map Bus.computeEventSize).sum := by
  simpa using foldl_add_eq_sum Bus.computeEventSize l 0

theorem entryListSize_nil : Bus.entryListSize [] = 0 := rfl

theorem entryListSize_singleton (e : PutEventsRequestEntry) :
    Bus.entryListSize [e] = Bus.computeEventSize e := by
  simp [entryListSize_eq_sum]

theorem entryListSize_append_singleton (l : List PutEventsRequestEntry)
    (e : PutEventsRequestEntry) :
    Bus.entryListSize (l ++ [e]) = Bus.entryListSize l + Bus.computeEventSize e := by
  simp [entryListSize_eq_sum]

theorem entryListSize_le_of_bounded (B : Nat) (l : List PutEventsRequestEntry)
    (h : ∀ e ∈ l, Bus.computeEventSize e ≤ B) :
    Bus.entryListSize l ≤ B * l.length := by
  induction l with
  | nil => simp [entryListSize_nil]
  | cons e l ih =>
    have h1 : Bus.entryListSize (e :: l) = Bus.computeEventSize e + Bus.entryListSize l := by
      simp [entryListSize_eq_sum]
    have h2 := ih (fun x hx => h x (List.mem_cons_of_mem e hx))
    have h3 := h e (List.mem_cons_self e l)
    simp only [List.length_cons]
    rw [h1]
    calc Bus.computeEventSize e + Bus.entryListSize l ≤ B + B * l.length := by omega
    _ = B * (l.length + 1) := by ring

theorem byteLen_replicate (n : Nat) (c : Char) :
    byteLen (String.mk (List.replicate n c)) = n * c.utf8Size := by
  simp only [byteLen]
  rw [foldl_add_eq_sum Char.utf8Size (List.replicate n c) 0]
  simp [List.map_replicate, List.sum_replicate, smul_eq_mul]

/-! ## Lemmas about the chunking loop -/

theorem chunkGo_flatten (entries : List PutEventsRequestEntry) :
    ∀ (cur : List PutEventsRequestEntry) (size : Nat)
      (chunks : List (List PutEventsRequestEntry)),
      (Bus.chunkGo entries cur size chunks).flatten = chunks.flatten ++ (cur ++ entries) := by
  induction entries with
  | nil =>
    intro cur size chunks
    simp only [Bus.chunkGo]
    split
    · simp
    · rename_i h
      have hc : cur = [] := by
        have := Nat.eq_zero_of_not_pos h
        exact List.length_eq_zero.mp this
      simp [hc]
  | cons e rest ih =>
    intro cur size chunks
    simp only [Bus.chunkGo]
    split
    · split
      · rw [ih]; simp
      · rw [ih]; simp
    · rw [ih]; simp

theorem chunkGo_length_le (entries : List PutEventsRequestEntry) :
    ∀ (cur : List PutEventsRequestEntry) (size : Nat)
      (chunks : List (List PutEventsRequestEntry)),
      (∀ c ∈ chunks, c.length ≤ 10) → cur.length ≤ 10 →
      ∀ c ∈ Bus.chunkGo entries cur size chunks, c.length ≤ 10 := by
  induction entries with
  | nil =>
    intro cur size chunks hchunks hcur c hc
    simp only [Bus.chunkGo] at hc
    split at hc
    · rcases List.mem_append.mp hc with h | h
      · exact hchunks c h
      · simp at h; subst h; exact hcur
    · exact hchunks c hc
  | cons e rest ih =>
    intro cur size chunks hchunks hcur c hc
    simp only [Bus.chunkGo] at hc
    split at hc
    · rename_i hcond
      split at hc
      · refine ih [e] _ (chunks ++ [cur]) ?_ (by simp) c hc
        intro d hd
        rcases List.mem_append.mp hd with h | h
        · exact hchunks d h
        · simp at h; subst h; exact hcur
      · rename_i hzero
        have hc0 : cur = [] := List.length_eq_zero.mp (Nat.eq_zero_of_not_pos hzero)
        refine ih (cur ++ [e]) _ chunks hchunks ?_ c hc
        simp [hc0]
    · rename_i hcond
      have hlen : cur.length ≤ 9 := by
        by_contra hgt
        exact hcond (Or.inl (by omega))
      refine ih (cur ++ [e]) _ chunks hchunks ?_ c hc
      simp only [List.length_append, List.length_singleton]
      omega

theorem chunkGo_size_le (entries : List PutEventsRequestEntry) :
    ∀ (cur : List PutEventsRequestEntry) (size : Nat)
      (chunks : List (List PutEventsRequestEntry)),
      (∀ e ∈ entries, Bus.computeEventSize e ≤ 256000) →
      size = Bus.entryListSize cur →
      (∀ c ∈ chunks, Bus.entryListSize c ≤ 256000) →
      Bus.entryListSize cur ≤ 256000 →
      ∀ c ∈ Bus.chunkGo entries cur size chunks, Bus.entryListSize c ≤ 256000 := by
  induction entries with
  | nil =>
    intro cur size chunks _ _ hchunks hcur c hc
    simp only [Bus.chunkGo] at hc
    split at hc
    · rcases List.mem_append.mp hc with h | h
      · exact hchunks c h
      · simp at h; subst h; exact hcur
    · exact hchunks c hc
  | cons e rest ih =>
    intro cur size chunks hsmall hsize hchunks hcur c hc
    have he : Bus.computeEventSize e ≤ 256000 := hsmall e (List.mem_cons_self e rest)
    have hrest : ∀ x ∈ rest, Bus.computeEventSize x ≤ 256000 :=
      fun x hx => hsmall x (List.mem_cons_of_mem e hx)
    simp only [Bus.chunkGo] at hc
    split at hc
    · split at hc
      · refine ih [e] _ (chunks ++ [cur]) hrest (by simp [entryListSize_singleton]) ?_
          (by simp [entryListSize_singleton, he]) c hc
        intro d hd
        rcases List.mem_append.mp hd with h | h
        · exact hchunks d h
        · simp at h; subst h; exact hcur
      · refine ih (cur ++ [e]) _ chunks hrest
          (by simp [entryListSize_append_singleton, hsize]) hchunks ?_ c hc
        rename_i hzero
        have hc0 : cur = [] := List.length_eq_zero.mp (Nat.eq_zero_of_not_pos hzero)
        simp [hc0, entryListSize_singleton, he]
    · rename_i hcond
      have hle : size + Bus.computeEventSize e ≤ 256000 := by
        by_contra hgt
        exact hcond (Or.inr (Or.inl (by omega)))
      refine ih (cur ++ [e]) _ chunks hrest
        (by simp [entryListSize_append_singleton, hsize]) hchunks ?_ c hc
      rw [entryListSize_append_singleton]
      omega

theorem chunkEntries_flatten (entries : List PutEventsRequestEntry) :
    (Bus.chunkEntries entries).flatten = entries := by
  simp only [Bus.chunkEntries]
  split
  · simpa using chunkGo_flatten entries [] 0 []
  · have := chunkGo_flatten entries [] 0 []
    rename_i h
    have hnil : Bus.chunkGo entries [] 0 [] = [] :=
      List.length_eq_zero.mp (Nat.eq_zero_of_not_pos h)
    rw [hnil] at this
    simp at this ⊢
    exact this

theorem chunkEntries_length_le (entries : List PutEventsRequestEntry) :
    ∀ c ∈ Bus.chunkEntries entries, c.length ≤ 10 := by
  simp only [Bus.chunkEntries]
  split
  · exact chunkGo_length_le entries [] 0 [] (by simp) (by simp)
  · intro c hc
    simp at hc
    simp [hc]

theorem chunkEntries_size_le (entries : List PutEventsRequestEntry)
    (h : ∀ e ∈ entries, Bus.computeEventSize e ≤ 256000) :
    ∀ c ∈ Bus.chunkEntries entries, Bus.entryListSize c ≤ 256000 := by
  simp only [Bus.chunkEntries]
  split
  · exact chunkGo_size_le entries [] 0 [] h rfl (by simp) (by simp [entryListSize_nil])
  · intro c hc
    simp at hc
    simp [hc, entryListSize_nil]

theorem chunkEntries_singleton (e : PutEventsRequestEntry) :
    Bus.chunkEntries [e] = [[e]] := by
  have hgo : Bus.chunkGo [e] [] 0 [] = [[e]] := by
    simp only [Bus.chunkGo]
    split
    · simp [Bus.chunkGo]
    · simp [Bus.chunkGo]
  simp [Bus.chunkEntries, hgo]

/-- The single publish entry whose computed size exceeds the 256000-byte
chunk limit on its own: a `Detail` of 256001 ASCII bytes. -/
def oversizedEntry : PutEventsRequestEntry :=
  { Detail := some (String.mk (List.replicate 256001 'a')) }

theorem computeEventSize_detail_only (s : String) :
    Bus.computeEventSize { Detail := some s } = byteLen s := by
  simp [Bus.computeEventSize]

theorem oversizedEntry_size : Bus.computeEventSize oversizedEntry = 256001 := by
  have h := byteLen_replicate 256001 'a'
  have hc : 'a'.utf8Size = 1 := by decide
  rw [hc, Nat.mul_one] at h
  show Bus.computeEventSize { Detail := some (String.mk (List.replicate 256001 'a')) } = 256001
  rw [computeEventSize_detail_only, h]

/-- C1, counterexample: for the one-entry list whose entry is larger than
256000 bytes, `Bus.chunkEntries` produces a chunk whose summed size exceeds
256000 (the oversized entry is placed alone in an over-limit chunk), so the
claimed partition property fails on this input. -/
theorem c1_chunk_partition_counterexample :
    ¬ ((∀ c ∈ Bus.chunkEntries [oversizedEntry],
          c.length ≤ 10 ∧ Bus.entryListSize c ≤ 256000) ∧
       (Bus.chunkEntries [oversizedEntry]).flatten = [oversizedEntry]) := by
  intro h
  have hmem : [oversizedEntry] ∈ Bus.chunkEntries [oversizedEntry] := by
    rw [chunkEntries_singleton]
    exact List.mem_singleton.mpr rfl
  have hsz := (h.1 [oversizedEntry] hmem).2
  rw [entryListSize_singleton, oversizedEntry_size] at hsz
  omega

/-- C1 (amended): `Bus.chunkEntries` partitions any entry list into chunks of
at most 10 entries whose concatenation, in order, is the input; and whenever
every individual entry's computed size is at most 256000 bytes, every chunk's
summed size is also at most 256000 bytes.  (Without that proviso a single
entry above the limit forms its own chunk, which exceeds the bound — see the
counterexample.) -/
theorem c1_chunk_partition (entries : List PutEventsRequestEntry) :
    (∀ c ∈ Bus.chunkEntries entries, c.length ≤ 10) ∧
    (Bus.chunkEntries entries).flatten = entries ∧
    ((∀ e ∈ entries, Bus.computeEventSize e ≤ 256000) →
      ∀ c ∈ Bus.chunkEntries entries, Bus.entryListSize c ≤ 256000) :=
  ⟨chunkEntries_length_le entries, chunkEntries_flatten entries,
   fun h => chunkEntries_size_le entries h⟩

/-- Witness for C1: the partition property evaluated on a concrete
three-entry list of small entries. -/
theorem c1_chunk_partition_witness :
    (∀ c ∈ Bus.chunkEntries
        [{ Detail := some "d1" }, { Detail := some "d2" }, { Source := some "s" }],
      Bus.entryListSize c ≤ 256000) ∧
    (Bus.chunkEntries
        [{ Detail := some "d1" }, { Detail := some "d2" }, { Source := some "s" }]).flatten =
      [{ Detail := some "d1" }, { Detail := some "d2" }, { Source := some "s" }] := by
  have h := c1_chunk_partition
    [{ Detail := some "d1" }, { Detail := some "d2" }, { Source := some "s" }]
  exact ⟨h.2.2 (by decide), h.2.1⟩

theorem computeEventSize_withBusName (name : String) (e : PutEventsRequestEntry) :
    Bus.computeEventSize (Bus.withBusName name e) = Bus.computeEventSize e := rfl

/-- When every entry is at most 25600 bytes, the byte-size limit can never
trigger (ten such entries sum to at most 256000), so the chunking loop
chunks by count alone. -/
theorem chunkGo_small (entries : List PutEventsRequestEntry) :
    ∀ (cur : List PutEventsRequestEntry) (size : Nat)
      (chunks : List (List PutEventsRequestEntry)),
      (∀ e ∈ entries, Bus.computeEventSize e ≤ 25600) →
      (∀ e ∈ cur, Bus.computeEventSize e ≤ 25600) →
      size = Bus.entryListSize cur → cur.length ≤ 10 →
      Bus.chunkGo entries cur size chunks = chunks ++ countChunkAux cur entries := by
  induction entries with
  | nil =>
    intro cur size chunks _ _ _ _
    simp only [Bus.chunkGo, countChunkAux]
    split <;> simp
  | cons e rest ih =>
    intro cur size chunks hsmall hcur hsize hlen
    have he : Bus.computeEventSize e ≤ 25600 := hsmall e (List.mem_cons_self e rest)
    have hrest : ∀ x ∈ rest, Bus.computeEventSize x ≤ 25600 :=
      fun x hx => hsmall x (List.mem_cons_of_mem e hx)
    have hsum : Bus.entryListSize cur ≤ 25600 * cur.length :=
      entryListSize_le_of_bounded 25600 cur hcur
    simp only [Bus.chunkGo]
    split
    · rename_i hcond
      split
      · rename_i hpos
        have h10 : cur.length ≥ 10 := by
          rcases hcond with h | h | h
          · exact h
          · omega
          · rcases h with ⟨-, h⟩; omega
        have hrec := ih [e] (Bus.computeEventSize e) (chunks ++ [cur]) hrest
          (by intro x hx; simp at hx; subst hx; exact he)
          (by simp [entryListSize_singleton]) (by simp)
        rw [hrec]
        simp only [countChunkAux]
        rw [if_pos h10]
        simp
      · rename_i hpos
        exfalso
        have hc0 : cur = [] := List.length_eq_zero.mp (Nat.eq_zero_of_not_pos hpos)
        subst hc0
        simp [entryListSize_nil] at hsize
        subst hsize
        rcases hcond with h | h | h
        · simp at h
        · omega
        · simp at h
    · rename_i hcond
      have h10 : ¬ cur.length ≥ 10 := fun h => hcond (Or.inl h)
      have hrec := ih (cur ++ [e]) (size + Bus.computeEventSize e) chunks hrest
        (by
          intro x hx
          rcases List.mem_append.mp hx with h | h
          · exact hcur x h
          · simp at h; subst h; exact he)
        (by simp [entryListSize_append_singleton, hsize])
        (by simp only [List.length_append, List.length_singleton]; omega)
      rw [hrec]
      simp only [countChunkAux]
      rw [if_neg h10]

/-- C4: publishing 15 entries, each of computed size at most 25600 bytes (so
that ten of them never reach the 256000-byte request limit), through
`Bus.put` results in exactly two batch send calls — the first with the first
10 (bus-tagged) entries, the second with the remaining 5 — and the merged
response sums the two calls' failure counts and concatenates their result
entries. -/
theorem c4_put_fifteen_entries (name : String)
    (send : List PutEventsRequestEntry → PutEventsResponse)
    (e1 e2 e3 e4 e5 e6 e7 e8 e9 e10 e11 e12 e13 e14 e15 : PutEventsRequestEntry)
    (hsmall : ∀ e ∈ [e1, e2, e3, e4, e5, e6, e7, e8, e9, e10, e11, e12, e13, e14, e15],
      Bus.computeEventSize e ≤ 25600) :
    Bus.chunkEntries
        ([e1, e2, e3, e4, e5, e6, e7, e8, e9, e10, e11, e12, e13, e14, e15].map
          (Bus.withBusName name)) =
      [[e1, e2, e3, e4, e5, e6, e7, e8, e9, e10].map (Bus.withBusName name),
       [e11, e12, e13, e14, e15].map (Bus.withBusName name)] ∧
    ([e1, e2, e3, e4, e5, e6, e7, e8, e9, e10].map (Bus.withBusName name)).length = 10 ∧
    ([e11, e12, e13, e14, e15].map (Bus.withBusName name)).length = 5 ∧
    Bus.put name send [e1, e2, e3, e4, e5, e6, e7, e8, e9, e10, e11, e12, e13, e14, e15] =
      { FailedEntryCount := some
          ((send ([e1, e2, e3, e4, e5, e6, e7, e8, e9, e10].map
              (Bus.withBusName name))).FailedEntryCount.getD 0 +
           (send ([e11, e12, e13, e14, e15].map
              (Bus.withBusName name))).FailedEntryCount.getD 0),
        Entries := some
          ((send ([e1, e2, e3, e4, e5, e6, e7, e8, e9, e10].map
              (Bus.withBusName name))).Entries.getD [] ++
           (send ([e11, e12, e13, e14, e15].map
              (Bus.withBusName name))).Entries.getD []) } := by
  have hsizes : ∀ e ∈ ([e1, e2, e3, e4, e5, e6, e7, e8, e9, e10, e11, e12, e13, e14,
      e15].map (Bus.withBusName name)), Bus.computeEventSize e ≤ 25600 := by
    intro x hx
    rcases List.mem_map.mp hx with ⟨y, hy, rfl⟩
    rw [computeEventSize_withBusName]
    exact hsmall y hy
  have hgo := chunkGo_small
    ([e1, e2, e3, e4, e5, e6, e7, e8, e9, e10, e11, e12, e13, e14, e15].map
      (Bus.withBusName name)) [] 0 [] hsizes (by simp) (by simp [entryListSize_nil])
    (by simp)
  have hcount : countChunkAux []
      ([e1, e2, e3, e4, e5, e6, e7, e8, e9, e10, e11, e12, e13, e14, e15].map
        (Bus.withBusName name)) =
      [[e1, e2, e3, e4, e5, e6, e7, e8, e9, e10].map (Bus.withBusName name),
       [e11, e12, e13, e14, e15].map (Bus.withBusName name)] := by
    simp only [List.map_cons, List.map_nil]
    rfl
  rw [hcount] at hgo
  have hchunks : Bus.chunkEntries
      ([e1, e2, e3, e4, e5, e6, e7, e8, e9, e10, e11, e12, e13, e14, e15].map
        (Bus.withBusName name)) =
      [[e1, e2, e3, e4, e5, e6, e7, e8, e9, e10].map (Bus.withBusName name),
       [e11, e12, e13, e14, e15].map (Bus.withBusName name)] := by
    simp only [Bus.chunkEntries]
    rw [hgo]
    simp
  refine ⟨hchunks, by simp, by simp, ?_⟩
  simp only [Bus.put]
  rw [hchunks]
  simp [Bus.mergeResponses]

/-- A small concrete publish entry (1 byte of `Detail`). -/
def smallEntry : PutEventsRequestEntry := { Detail := some "x" }

/-- Witness for C4: fifteen concrete small entries sent through `Bus.put`
with a send function that reports one failure per entry in the call: the
merged failure count is 10 + 5 = 15. -/
theorem c4_put_fifteen_entries_witness :
    Bus.put "b" (fun c => { FailedEntryCount := some c.length, Entries := some [] })
        [smallEntry, smallEntry, smallEntry, smallEntry, smallEntry, smallEntry,
         smallEntry, smallEntry, smallEntry, smallEntry, smallEntry, smallEntry,
         smallEntry, smallEntry, smallEntry] =
      { FailedEntryCount := some 15, Entries := some [] } := by
  have h := c4_put_fifteen_entries "b"
    (fun c => { FailedEntryCount := some c.length, Entries := some [] })
    smallEntry smallEntry smallEntry smallEntry smallEntry smallEntry smallEntry
    smallEntry smallEntry smallEntry smallEntry smallEntry smallEntry smallEntry
    smallEntry (by decide)
  simpa using h.2.2.2

/-! ## Publish (entries branch) -/

theorem sameBusCheck_none_or_error (selfBus firstBus : Nat) :
    ∀ entries, Event.sameBusCheck selfBus firstBus entries = none ∨
      Event.sameBusCheck selfBus firstBus entries = some Event.differentBusesError := by
  intro entries
  induction entries with
  | nil => exact Or.inl rfl
  | cons e rest ih =>
    simp only [Event.sameBusCheck]
    split
    · exact Or.inr rfl
    · exact ih

theorem sameBusCheck_none_sound (selfBus firstBus : Nat) :
    ∀ entries, Event.sameBusCheck selfBus firstBus entries = none →
      ∀ e ∈ entries, (Event.getBusFromEntry e).getD selfBus = firstBus := by
  intro entries
  induction entries with
  | nil => intro _ e he; cases he
  | cons x rest ih =>
    intro h e he
    simp only [Event.sameBusCheck] at h
    split at h
    · cases h
    · rename_i hx
      rcases List.mem_cons.mp he with rfl | hmem
      · exact not_ne_iff.mp hx
      · exact ih h e hmem

/-- C3: publishing an array of pre-built entries in which two entries are
tagged with different bus identities makes `Event.publish` throw the
different-buses error; in the model the `.error` outcome is produced instead
of the `.ok` outcome that carries the (single) `bus.put` dispatch, so no put
call is made. -/
theorem c3_mixed_bus_throws (selfBus : Nat) (entries : List PutEventsRequestEntry)
    (a b : PutEventsRequestEntry) (ha : a ∈ entries) (hb : b ∈ entries)
    (ba bb : Nat) (hba : Event.getBusFromEntry a = some ba)
    (hbb : Event.getBusFromEntry b = some bb) (hne : ba ≠ bb) :
    Event.publishEntries selfBus entries = .error Event.differentBusesError := by
  cases entries with
  | nil => cases ha
  | cons first rest =>
    simp only [Event.publishEntries]
    rcases sameBusCheck_none_or_error selfBus
        ((Event.getBusFromEntry first).getD selfBus) (first :: rest) with hnone | hsome
    · exfalso
      have hall := sameBusCheck_none_sound selfBus
        ((Event.getBusFromEntry first).getD selfBus) (first :: rest) hnone
      have h1 := hall a ha
      have h2 := hall b hb
      rw [hba] at h1
      rw [hbb] at h2
      simp only [Option.getD_some] at h1 h2
      exact hne (h1.trans h2.symm)
    · rw [hsome]

/-- Witness for C3: two concrete entries tagged with buses 1 and 2. -/
theorem c3_mixed_bus_throws_witness :
    Event.publishEntries 0 [{ «__bus» := some 1 }, { «__bus» := some 2 }] =
      .error Event.differentBusesError :=
  c3_mixed_bus_throws 0 [{ «__bus» := some 1 }, { «__bus» := some 2 }]
    { «__bus» := some 1 } { «__bus» := some 2 } (by decide) (by decide)
    1 2 rfl rfl (by decide)

/-- C7: `Event.publish` called with an empty array throws the empty-array
error; in the model the `.error` is produced by the first check of
`publishEntries`, before any entry construction or bus access. -/
theorem c7_publish_empty_throws (selfBus : Nat) :
    Event.publishEntries selfBus [] = .error Event.emptyPublishError := rfl

/-! ## Pattern generation -/

theorem insertNew_nodup (acc : List String) (s : String) (h : acc.Nodup) :
    (insertNew acc s).Nodup := by
  simp only [insertNew]
  split
  · exact h
  · rename_i hmem
    simpa [List.nodup_append] using ⟨h, hmem⟩

theorem insertNew_mem (acc : List String) (s x : String) :
    x ∈ insertNew acc s ↔ x ∈ acc ∨ x = s := by
  simp only [insertNew]
  split
  · rename_i hmem
    constructor
    · exact fun h => Or.inl h
    · rintro (h | rfl)
      · exact h
      · exact hmem
  · simp

theorem jsSetDedup_go_nodup :
    ∀ (l : List String) (acc : List String), acc.Nodup → (l.foldl insertNew acc).Nodup
  | [], acc, h => h
  | s :: l, acc, h => by
    simp only [List.foldl_cons]
    exact jsSetDedup_go_nodup l (insertNew acc s) (insertNew_nodup acc s h)

theorem jsSetDedup_go_mem :
    ∀ (l : List String) (acc : List String) (x : String),
      x ∈ l.foldl insertNew acc ↔ x ∈ acc ∨ x ∈ l
  | [], acc, x => by simp
  | s :: l, acc, x => by
    simp only [List.foldl_cons, jsSetDedup_go_mem l (insertNew acc s) x,
      insertNew_mem, List.mem_cons]
    tauto

theorem jsSetDedup_nodup (l : List String) : (jsSetDedup l).Nodup :=
  jsSetDedup_go_nodup l [] List.nodup_nil

theorem jsSetDedup_mem (l : List String) (x : String) : x ∈ jsSetDedup l ↔ x ∈ l := by
  simp [jsSetDedup, jsSetDedup_go_mem l [] x]

/-- C5: for every non-empty event list and every optional filter, the
generated pattern has `source` and `detail-type` arrays — `Event.pattern`
with the one event's source and name as singletons, `Event.computePattern`
with the de-duplicated sources and the concatenation of the events' names —
and the pattern carries `detail.properties` equal to the filter verbatim
exactly when a filter is given, no `detail` key otherwise. -/
theorem c5_pattern_shape {α : Type} (ev : Event.PatternEvent)
    (events : List Event.PatternEvent) (filter : Option α) (h : events ≠ []) :
    ((Event.pattern ev filter).source = [ev.source] ∧
     (Event.pattern ev filter).«detail-type» = [ev.name] ∧
     (∀ f, filter = some f → (Event.pattern ev filter).detail = some ⟨f⟩) ∧
     (filter = none → (Event.pattern ev filter).detail = none)) ∧
    ∃ p, Event.computePattern events filter = .ok p ∧
      p.source = jsSetDedup (events.map Event.PatternEvent.source) ∧
      p.source.Nodup ∧
      (∀ s, s ∈ p.source ↔ s ∈ events.map Event.PatternEvent.source) ∧
      p.«detail-type» = events.map Event.PatternEvent.name ∧
      (∀ f, filter = some f → p.detail = some ⟨f⟩) ∧
      (filter = none → p.detail = none) := by
  constructor
  · refine ⟨?_, ?_, ?_, ?_⟩
    · cases filter <;> rfl
    · cases filter <;> rfl
    · intro f hf
      subst hf
      rfl
    · intro hf
      subst hf
      rfl
  · have hlen : ¬ events.length = 0 := fun h0 => h (List.length_eq_zero.mp h0)
    cases filter with
    | none =>
      refine ⟨{ source := jsSetDedup (events.map Event.PatternEvent.source),
                «detail-type» := events.map Event.PatternEvent.name,
                detail := none }, ?_, rfl, jsSetDedup_nodup _,
              fun s => jsSetDedup_mem _ s, rfl, ?_, fun _ => rfl⟩
      · simp only [Event.computePattern]
        rw [if_neg hlen]
      · intro f hf
        cases hf
    | some f =>
      refine ⟨{ source := jsSetDedup (events.map Event.PatternEvent.source),
                «detail-type» := events.map Event.PatternEvent.name,
                detail := some ⟨f⟩ }, ?_, rfl, jsSetDedup_nodup _,
              fun s => jsSetDedup_mem _ s, rfl, ?_, ?_⟩
      · simp only [Event.computePattern]
        rw [if_neg hlen]
      · intro g hg
        cases Option.some.inj hg
        rfl
      · intro hg
        cases hg

/-- Witness for C5: two concrete events sharing a source, with and without a
concrete filter. -/
theorem c5_pattern_shape_witness :
    (Event.pattern ⟨"order.created", "orders"⟩ (some 7)).detail = some ⟨7⟩ ∧
    ∃ p, Event.computePattern
        [⟨"order.created", "orders"⟩, ⟨"order.shipped", "orders"⟩] (none : Option Nat) =
          .ok p ∧
      p.source = ["orders"] ∧
      p.«detail-type» = ["order.created", "order.shipped"] ∧
      p.detail = none := by
  have h := c5_pattern_shape (α := Nat) ⟨"order.created", "orders"⟩
    [⟨"order.created", "orders"⟩, ⟨"order.shipped", "orders"⟩] (some 7) (by decide)
  have h2 := c5_pattern_shape (α := Nat) ⟨"order.created", "orders"⟩
    [⟨"order.created", "orders"⟩, ⟨"order.shipped", "orders"⟩] none (by decide)
  refine ⟨h.1.2.2.1 7 rfl, ?_⟩
  rcases h2.2 with ⟨p, hp, hsrc, _, _, hdt, _, hnone⟩
  exact ⟨p, hp, by rw [hsrc]; decide, by rw [hdt]; decide, hnone rfl⟩

/-- C6: `Event.computePattern` called with an empty events array throws, for
every filter argument. -/
theorem c6_computePattern_empty_throws {α : Type} (filter : Option α) :
    Event.computePattern [] filter = .error Event.emptyPatternError := rfl

/-! ## Lazy bus resolution -/

theorem runGetBus_resolved (r : Event.BusRef) (b : Nat) :
    ∀ n, Event.runGetBus n { busRef := r, resolvedBus := some b } =
      (List.replicate n b, { busRef := r, resolvedBus := some b }, 0) := by
  intro n
  induction n with
  | zero => rfl
  | succ n ih =>
    simp only [Event.runGetBus, Event.getBus]
    rw [ih]
    simp [List.replicate_succ]

/-- C9: starting from a freshly constructed `Event` (no memoized bus), any
number `n` of accesses to the lazy `bus` getter — as performed by any
sequence of `create`/`publish` operations — invokes the factory at most
once in total, and every access returns the same resolved bus. -/
theorem c9_bus_factory_once (r : Event.BusRef) (n : Nat) :
    (Event.runGetBus n (Event.initState r)).2.2 ≤ 1 ∧
    ∀ b ∈ (Event.runGetBus n (Event.initState r)).1, b = Event.resolveBusRef r := by
  cases n with
  | zero =>
    refine ⟨by simp [Event.runGetBus], ?_⟩
    intro b hb
    simp [Event.runGetBus] at hb
  | succ n =>
    have hfirst : Event.getBus (Event.initState r) =
        (Event.resolveBusRef r,
         { busRef := r, resolvedBus := some (Event.resolveBusRef r) },
         Event.factoryInvocations r) := rfl
    have hrun := runGetBus_resolved r (Event.resolveBusRef r) n
    have hstep : Event.runGetBus (n + 1) (Event.initState r) =
        (Event.resolveBusRef r :: List.replicate n (Event.resolveBusRef r),
         { busRef := r, resolvedBus := some (Event.resolveBusRef r) },
         Event.factoryInvocations r + 0) := by
      simp only [Event.runGetBus, hfirst, hrun]
    rw [hstep]
    refine ⟨?_, ?_⟩
    · cases r <;> simp [Event.factoryInvocations]
    · intro b hb
      rcases List.mem_cons.mp hb with rfl | hmem
      · rfl
      · exact List.eq_of_mem_replicate hmem

/-! ## Event handler -/

/-- C10: the handler built by `createEventHandler` rejects (without any
callback invocation) an envelope whose detail-type matches no event
definition; on a match it parses `detail.properties` with the matching
event's schema, propagating a parse error, and otherwise invokes the
callback exactly once with the parsed properties (the `.ok` list is the
sequence of callback invocations). -/
theorem c10_handler (P V M : Type) (events : List (HandlerEvent P V))
    (env : EventBridgeEnvelope P M) :
    ((∀ e ∈ events, e.name ≠ env.detailType) →
      createEventHandler events env = .error (noEventDefinitionError env.detailType)) ∧
    (∀ ev, events.find? (fun e => e.name == env.detailType) = some ev →
      (∀ msg, ev.parse env.properties = .error msg →
        createEventHandler events env = .error msg) ∧
      (∀ v, ev.parse env.properties = .ok v →
        createEventHandler events env =
          .ok [{ type := env.detailType, properties := v, metadata := env.metadata }])) := by
  constructor
  · intro hno
    have hfind : events.find? (fun e => e.name == env.detailType) = none := by
      apply List.find?_eq_none.mpr
      intro e he
      simpa using hno e he
    simp [createEventHandler, hfind]
  · intro ev hev
    constructor
    · intro msg hmsg
      simp [createEventHandler, hev, hmsg]
    · intro v hv
      simp [createEventHandler, hev, hv]

/-- Witness for C10: a single concrete event definition named `"a"` whose
parser rejects 0 and increments anything else; an unmatched envelope, a
failing parse, and a successful parse. -/
theorem c10_handler_witness :
    createEventHandler
        [⟨"a", fun n => if n = 0 then .error "bad" else .ok (n + 1)⟩]
        ({ detailType := "b", properties := (5 : Nat), metadata := (none : Option Nat) }) =
      .error (noEventDefinitionError "b") ∧
    createEventHandler
        [⟨"a", fun n => if n = 0 then .error "bad" else .ok (n + 1)⟩]
        ({ detailType := "a", properties := (0 : Nat), metadata := (none : Option Nat) }) =
      .error "bad" ∧
    createEventHandler
        [⟨"a", fun n => if n = 0 then .error "bad" else .ok (n + 1)⟩]
        ({ detailType := "a", properties := (5 : Nat), metadata := (none : Option Nat) }) =
      .ok [{ type := "a", properties := 6, metadata := none }] := by
  refine ⟨?_, ?_, ?_⟩
  · apply (c10_handler Nat Nat Nat
      [⟨"a", fun n => if n = 0 then .error "bad" else .ok (n + 1)⟩]
      { detailType := "b", properties := 5, metadata := none }).1
    intro e he
    rcases List.mem_singleton.mp he with rfl
    decide
  · exact ((c10_handler Nat Nat Nat
      [⟨"a", fun n => if n = 0 then .error "bad" else .ok (n + 1)⟩]
      { detailType := "a", properties := 0, metadata := none }).2
      ⟨"a", fun n => if n = 0 then .error "bad" else .ok (n + 1)⟩ rfl).1 "bad" rfl
  · exact ((c10_handler Nat Nat Nat
      [⟨"a", fun n => if n = 0 then .error "bad" else .ok (n + 1)⟩]
      { detailType := "a", properties := 5, metadata := none }).2
      ⟨"a", fun n => if n = 0 then .error "bad" else .ok (n + 1)⟩ rfl).2 6 rfl

/-! ## Transform inference -/

theorem recordSet_mem (m : List (String × String)) (k v : String) (p : String × String)
    (hp : p ∈ recordSet m k v) : p ∈ m ∨ p = (k, v) := by
  simp only [recordSet] at hp
  split at hp
  · rcases List.mem_map.mp hp with ⟨q, hq, hpq⟩
    by_cases hk : q.1 = k
    · right
      rw [← hpq]
      simp [hk]
    · left
      rw [← hpq]
      simpa [hk] using hq
  · rcases List.mem_append.mp hp with h | h
    · exact Or.inl h
    · simp only [List.mem_singleton] at h
      exact Or.inr h

theorem recordSet_mem_of_ne (m : List (String × String)) (k v : String)
    (p : String × String) (hp : p ∈ m) (hne : p.1 ≠ k) : p ∈ recordSet m k v := by
  simp only [recordSet]
  split
  · exact List.mem_map.mpr ⟨p, hp, by simp [hne]⟩
  · exact List.mem_append_left _ hp

theorem recordSet_key_mem (m : List (String × String)) (k' v k : String)
    (hk : ∃ w, (k, w) ∈ m) : ∃ w, (k, w) ∈ recordSet m k' v := by
  rcases hk with ⟨w, hw⟩
  by_cases hkk : k = k'
  · subst hkk
    simp only [recordSet]
    split
    · exact ⟨v, List.mem_map.mpr ⟨(k, w), hw, by simp⟩⟩
    · exact ⟨w, List.mem_append_left _ hw⟩
  · exact ⟨w, recordSet_mem_of_ne m k' v (k, w) hw hkk⟩

theorem recordSet_key_added (m : List (String × String)) (k v : String) :
    ∃ w, (k, w) ∈ recordSet m k v := by
  simp only [recordSet]
  split
  · rename_i hany
    rcases List.any_eq_true.mp hany with ⟨q, hq, hqk⟩
    simp only [decide_eq_true_eq] at hqk
    exact ⟨v, List.mem_map.mpr ⟨q, hq, by simp [hqk]⟩⟩
  · exact ⟨v, List.mem_append_right _ (by simp)⟩

theorem addEventPath_fold_key (fields : List String) :
    ∀ (m : List (String × String)) (k : String),
      (k ∈ fields ∨ ∃ w, (k, w) ∈ m) → ∃ w, (k, w) ∈ fields.foldl addEventPath m := by
  induction fields with
  | nil =>
    intro m k h
    rcases h with h | h
    · cases h
    · exact h
  | cons f fs ih =>
    intro m k h
    simp only [List.foldl_cons]
    apply ih
    rcases h with h | h
    · rcases List.mem_cons.mp h with rfl | hmem
      · exact Or.inr (recordSet_key_added m k _)
      · exact Or.inl hmem
    · exact Or.inr (recordSet_key_mem m f _ k h)

theorem addSystemPath_fold_mem (xs : List String) :
    ∀ (m : List (String × String)) (p : String × String),
      p ∈ xs.foldl addSystemPath m →
      p ∈ m ∨ p = ("time", "$.time") ∨ p = ("source", "$.source") := by
  induction xs with
  | nil =>
    intro m p hp
    exact Or.inl hp
  | cons x xs ih =>
    intro m p hp
    simp only [List.foldl_cons] at hp
    rcases ih (addSystemPath m x) p hp with hm | hsys
    · simp only [addSystemPath] at hm
      split at hm
      · rename_i hx
        rcases recordSet_mem m x "$.time" p hm with h | h
        · exact Or.inl h
        · subst hx
          exact Or.inr (Or.inl h)
      · split at hm
        · rename_i hx
          rcases recordSet_mem m x "$.source" p hm with h | h
          · exact Or.inl h
          · subst hx
            exact Or.inr (Or.inr h)
        · exact Or.inl hm
    · exact Or.inr hsys

theorem addSystemPath_fold_preserve (xs : List String) :
    ∀ (m : List (String × String)) (f w : String), (f, w) ∈ m →
      (∀ x ∈ xs, (x = "time" ∨ x = "source") → x ≠ f) →
      (f, w) ∈ xs.foldl addSystemPath m := by
  induction xs with
  | nil =>
    intro m f w hm _
    exact hm
  | cons x xs ih =>
    intro m f w hm hx
    simp only [List.foldl_cons]
    refine ih (addSystemPath m x) f w ?_
      (fun y hy => hx y (List.mem_cons_of_mem x hy))
    simp only [addSystemPath]
    split
    · rename_i ht
      exact recordSet_mem_of_ne m x "$.time" (f, w) hm
        (fun hf => hx x (List.mem_cons_self x xs) (Or.inl ht) hf.symm)
    · split
      · rename_i hs
        exact recordSet_mem_of_ne m x "$.source" (f, w) hm
          (fun hf => hx x (List.mem_cons_self x xs) (Or.inr hs) hf.symm)
      · exact hm

theorem addSystemPath_fold_key (xs : List String) :
    ∀ (m : List (String × String)) (k : String),
      (∃ w, (k, w) ∈ m) → ∃ w, (k, w) ∈ xs.foldl addSystemPath m := by
  induction xs with
  | nil =>
    intro m k h
    exact h
  | cons x xs ih =>
    intro m k h
    simp only [List.foldl_cons]
    apply ih
    simp only [addSystemPath]
    split
    · exact recordSet_key_mem m x "$.time" k h
    · split
      · exact recordSet_key_mem m x "$.source" k h
      · exact h

/-- C2 (amended): (1) for a transform whose recorded event-property reads
de-duplicate to exactly one field `f`, which does not also return the whole
event-properties placeholder in its result, and whose name does not collide
with a recorded system read of `time`/`source` (which would overwrite the
record entry), `createTransform`'s `inputPaths` contains
`f ↦ $.detail.properties.f` and every other entry is one of the two system
paths; (2) for a transform that returns the whole placeholder somewhere in
its result and is given the event schema, `inputPaths` contains an entry for
every introspected field of the schema. -/
theorem c2_transform_input_paths (t : TransformFn) :
    (∀ (sch : Option ZodObjectSchema) (f : String),
      containsEventProxy t.result = false →
      jsSetDedup t.reads = [f] →
      ¬ (f ∈ t.sysReads ∧ (f = "time" ∨ f = "source")) →
      ((f, "$.detail.properties." ++ f) ∈ (createTransform t sch).inputPaths ∧
       ∀ p ∈ (createTransform t sch).inputPaths,
         p = (f, "$.detail.properties." ++ f) ∨
         p = ("time", "$.time") ∨ p = ("source", "$.source"))) ∧
    (∀ (sch : ZodObjectSchema),
      containsEventProxy t.result = true →
      ∀ g ∈ extractSchemaFields sch,
        ∃ w, (g, w) ∈ (createTransform t (some sch)).inputPaths) := by
  constructor
  · intro sch f hproxy hreads hsys
    have hct : (createTransform t sch).inputPaths =
        generateInputPaths (jsSetDedup t.reads) (jsSetDedup t.sysReads) none := by
      cases sch <;> simp [createTransform, hproxy]
    have hbase : (jsSetDedup t.reads).foldl addEventPath [] =
        [(f, "$.detail.properties." ++ f)] := by
      rw [hreads]
      simp [addEventPath, recordSet]
    have hgen : (createTransform t sch).inputPaths =
        (jsSetDedup t.sysReads).foldl addSystemPath
          [(f, "$.detail.properties." ++ f)] := by
      rw [hct]
      simp only [generateInputPaths]
      rw [hbase]
    have hnocollide : ∀ x ∈ jsSetDedup t.sysReads,
        (x = "time" ∨ x = "source") → x ≠ f := by
      intro x hx hts heq
      subst heq
      exact hsys ⟨(jsSetDedup_mem t.sysReads x).mp hx, hts⟩
    constructor
    · rw [hgen]
      exact addSystemPath_fold_preserve (jsSetDedup t.sysReads)
        [(f, "$.detail.properties." ++ f)] f _ (by simp) hnocollide
    · intro p hp
      rw [hgen] at hp
      rcases addSystemPath_fold_mem (jsSetDedup t.sysReads)
          [(f, "$.detail.properties." ++ f)] p hp with h | h
      · exact Or.inl (List.mem_singleton.mp h)
      · exact Or.inr h
  · intro sch hproxy g hg
    have hct : (createTransform t (some sch)).inputPaths =
        generateInputPaths (jsSetDedup t.reads) (jsSetDedup t.sysReads)
          (some (extractSchemaFields sch)) := by
      simp [createTransform, hproxy]
    rw [hct]
    simp only [generateInputPaths]
    exact addSystemPath_fold_key (jsSetDedup t.sysReads) _ g
      (addEventPath_fold_key (extractSchemaFields sch) [] g (Or.inl hg))

/-- C2, counterexample: a transform that reads exactly the one property `"a"`
but also returns the whole event-properties placeholder, analysed with a
schema whose introspected fields are `a` and `b`: the resulting `inputPaths`
contains the event-property key `"b" ≠ "a"`, so "the only event-property key
is the read field" fails as universally stated. -/
theorem c2_transform_input_paths_counterexample :
    jsSetDedup (TransformFn.mk ["a"] [] JVal.eventProxy).reads = ["a"] ∧
    ("b", "$.detail.properties.b") ∈
      (createTransform (TransformFn.mk ["a"] [] JVal.eventProxy)
        (some (ZodObjectSchema.mk ["a", "b"]))).inputPaths ∧
    ("b" : String) ≠ "a" := by
  refine ⟨by decide, by decide, by decide⟩

/-- Witness for C2: a transform reading only `userId` (and the system
`time`), and a whole-placeholder transform with a two-field schema. -/
theorem c2_transform_input_paths_witness :
    (("userId", "$.detail.properties.userId") ∈
      (createTransform
        (TransformFn.mk ["userId"] ["time"]
          (JVal.objCons "id" (JVal.str "<userId>") JVal.objNil)) none).inputPaths) ∧
    (∃ w, ("b", w) ∈
      (createTransform (TransformFn.mk [] [] JVal.eventProxy)
        (some (ZodObjectSchema.mk ["a", "b"]))).inputPaths) := by
  constructor
  · exact ((c2_transform_input_paths
      (TransformFn.mk ["userId"] ["time"]
        (JVal.objCons "id" (JVal.str "<userId>") JVal.objNil))).1
      none "userId" rfl rfl (by decide)).1
  · exact (c2_transform_input_paths (TransformFn.mk [] [] JVal.eventProxy)).2
      (ZodObjectSchema.mk ["a", "b"]) rfl "b" (by decide)

/-! ## Schema registration -/

/-- C8, counterexample: a failing registry outcome.  `registerEventSchema`
indeed does not throw, but it resolves with no value (`.ok none`) rather than
with a result object carrying a success flag (`.ok (some r)` for no `r`):
its TS signature is `Promise<void>` and the `SchemaRegistrationResult`
produced inside is discarded. -/
theorem c8_registration_counterexample :
    registerEventSchema (.ok "{}") (.error "registry down") = .ok none ∧
    ∀ r : SchemaRegistrationResult,
      registerEventSchema (.ok "{}") (.error "registry down") ≠ .ok (some r) := by
  refine ⟨rfl, ?_⟩
  intro r h
  have h2 : (none : Option SchemaRegistrationResult) = some r := by
    injection h
  exact Option.noConfusion h2

/-- C8 (amended): `registerEventSchema` never rejects — every failure
(JSON-schema conversion or registry outcome) is caught — but it resolves
with no value; it is the underlying `schemaRegistry.registerSchema` that
converts failures into a result object with `success := false` (carrying the
error message) and successes into one with `success := true`. -/
theorem c8_registration_never_throws :
    (∀ (jsonSchema : Except String String)
       (outcome : Except String (Option String × Option String)),
      registerEventSchema jsonSchema outcome = .ok none) ∧
    (∀ msg, (registerSchema (.error msg)).success = false ∧
      (registerSchema (.error msg)).error = some msg) ∧
    (∀ arn ver, (registerSchema (.ok (arn, ver))).success = true) := by
  refine ⟨?_, ?_, ?_⟩
  · intro js outcome
    cases js <;> rfl
  · intro msg
    exact ⟨rfl, rfl⟩
  · intro arn ver
    rfl

end EventKit

